import Mathlib

/-
  Verification development for the expense-tracker server
  (src/expense_server.py).

  The server persists expense rows in a SQLite table and exposes four
  operations: add_expense, get_expenses, get_expense_summary and
  delete_expense.  We embed the store as a list of rows plus the
  AUTOINCREMENT counter, SQL REAL amounts as rationals, SQLite TEXT
  comparison as lexicographic comparison of the character lists (UTF-8
  byte order coincides with code-point order), and each operation as a
  pure function from the store (plus arguments) to its result dictionary
  and the successor store.  Store-level I/O failures (the `except`
  branches of each handler) are outside the embedding: the handlers'
  non-exceptional paths never raise.
-/

/-- Decimal digit test for the explicit ASCII classes `[0-9]`, `[1-9]`,
`[0-2]`, `[0-1]` of the strptime regexes. -/
def isDigit (c : Char) : Bool := '0' ≤ c && c ≤ '9'

/-- Numeric value of an ASCII digit character. -/
def digitVal (c : Char) : Nat := c.toNat - '0'.toNat

/-- Code points of the zero digits of the Unicode decimal-digit (Nd)
ranges of Unicode 14.0, the table bundled with CPython 3.11.  Every Nd
character lies in a run of ten consecutive code points carrying the
values 0 to 9 above one of these starts. -/
def ndZeroStarts : List Nat :=
  [0x30, 0x660, 0x6F0, 0x7C0, 0x966, 0x9E6, 0xA66, 0xAE6,
   0xB66, 0xBE6, 0xC66, 0xCE6, 0xD66, 0xDE6, 0xE50, 0xED0,
   0xF20, 0x1040, 0x1090, 0x17E0, 0x1810, 0x1946, 0x19D0, 0x1A80,
   0x1A90, 0x1B50, 0x1BB0, 0x1C40, 0x1C50, 0xA620, 0xA8D0, 0xA900,
   0xA9D0, 0xA9F0, 0xAA50, 0xABF0, 0xFF10, 0x104A0, 0x10D30, 0x11066,
   0x110F0, 0x11136, 0x111D0, 0x112F0, 0x11450, 0x114D0, 0x11650, 0x116C0,
   0x11730, 0x118E0, 0x11950, 0x11C50, 0x11D50, 0x11DA0, 0x16A60, 0x16AC0,
   0x16B50, 0x1D7CE, 0x1D7D8, 0x1D7E2, 0x1D7EC, 0x1D7F6, 0x1E140, 0x1E2F0,
   0x1E950, 0x1FBF0]

/-- Value of a character under Python's regex class `\d`: the strptime
format is compiled without re.ASCII, so `\d` matches every Unicode
decimal digit, whose value int() then uses. -/
def uniDigitVal? (c : Char) : Option Nat :=
  ndZeroStarts.findSome? (fun s =>
    if s ≤ c.toNat ∧ c.toNat < s + 10 then some (c.toNat - s) else none)

/-- Membership in the regex class `\d`. -/
def isNd (c : Char) : Bool := (uniDigitVal? c).isSome

/-- Value of a matched group under int(), which accepts any Unicode
decimal digits; the space of the padded-day alternative contributes
nothing, exactly as int() strips it. -/
def natOfDigits (cs : List Char) : Nat :=
  cs.foldl (fun a c => 10 * a + (uniDigitVal? c).getD 0) 0

/-- Gregorian leap-year rule, as in Python's `datetime`. -/
def isLeapYear (y : Nat) : Bool := (y % 4 == 0 && y % 100 != 0) || y % 400 == 0

/-- Number of days in month `m` of year `y`, as in Python's `datetime`. -/
def daysInMonth (y m : Nat) : Nat :=
  if m = 2 then (if isLeapYear y then 29 else 28)
  else if m = 4 ∨ m = 6 ∨ m = 9 ∨ m = 11 then 30 else 31

/-- The `%m` field of strptime: regex `1[0-2]|0[1-9]|[1-9]`, applied to
the run of field characters before the next separator.  A two-digit
alternative failing on the run leaves a one-digit month followed by a
non-separator character, which the overall pattern rejects, so testing
the cut run is equivalent to the backtracking match. -/
def monthField? : List Char → Option Nat
  | [c] => if '1' ≤ c ∧ c ≤ '9' then some (digitVal c) else none
  | [c1, c2] =>
      if c1 = '1' ∧ '0' ≤ c2 ∧ c2 ≤ '2' then some (10 + digitVal c2)
      else if c1 = '0' ∧ '1' ≤ c2 ∧ c2 ≤ '9' then some (digitVal c2)
      else none
  | _ => none

/-- The `%d` field of strptime on CPython 3.11: regex
`3[0-1]|[1-2]\d|0[1-9]|[1-9]| [1-9]`.  The `\d` is Unicode-wide and the
last alternative accepts a space-padded single digit. -/
def dayField? : List Char → Option Nat
  | [c] => if '1' ≤ c ∧ c ≤ '9' then some (digitVal c) else none
  | [c1, c2] =>
      if c1 = '3' ∧ (c2 = '0' ∨ c2 = '1') then some (30 + digitVal c2)
      else if (c1 = '1' ∨ c1 = '2') ∧ isNd c2 = true then
        some (10 * digitVal c1 + (uniDigitVal? c2).getD 0)
      else if c1 = '0' ∧ '1' ≤ c2 ∧ c2 ≤ '9' then some (digitVal c2)
      else if c1 = ' ' ∧ '1' ≤ c2 ∧ c2 ≤ '9' then some (digitVal c2)
      else none
  | _ => none

/-- Embedding of `datetime.strptime(date, "%Y-%m-%d")` succeeding, the
validation used by `add_expense`.  CPython compiles the format to the
anchored regex `(?P<Y>\d\d\d\d)-(?P<m>...)-(?P<d>...)` (without
re.ASCII, so `\d` is Unicode-wide), requires the whole string to be
consumed, and then builds `datetime(Y, m, d)`, which additionally
demands `1 ≤ Y` and a day valid for the month and year.  Since no
field character can be the separator, the match is equivalent to
cutting the tail at its first `-` and testing each field on its run. -/
def strptimeYmd (s : String) : Bool :=
  match s.data with
  | y1 :: y2 :: y3 :: y4 :: '-' :: rest =>
      isNd y1 && isNd y2 && isNd y3 && isNd y4 &&
      (match monthField? (rest.takeWhile (fun c => c != '-')),
             rest.dropWhile (fun c => c != '-') with
       | some m, '-' :: ds =>
           match dayField? ds with
           | some d => decide (1 ≤ natOfDigits [y1, y2, y3, y4]) &&
                       decide (d ≤ daysInMonth (natOfDigits [y1, y2, y3, y4]) m)
           | none => false
       | _, _ => false)
  | _ => false

/-- One row of the `expenses` table. -/
structure Expense where
  id : Nat
  date : String
  amount : ℚ
  category : String
  subcategory : String
  note : String
deriving DecidableEq

/-- The persisted state: the rows of the `expenses` table together with
the AUTOINCREMENT counter (the next `id` to be assigned; SQLite starts
at 1 and never reuses an id after deletion). -/
structure Store where
  rows : List Expense
  nextId : Nat
deriving DecidableEq

/-- The state after `init_db` has created the empty table. -/
def init_db : Store := { rows := [], nextId := 1 }

/-- Result dictionary of `add_expense`: `{"status": "ok", "id": ...}` or
`{"status": "error", "message": ...}`. -/
inductive AddResult where
  | ok : Nat → AddResult
  | error : String → AddResult
deriving DecidableEq

/-- Embedding of the `add_expense` tool: validate the date with
strptime, then the amount, then INSERT and report the assigned id. -/
def add_expense (s : Store) (date : String) (amount : ℚ)
    (category subcategory note : String) : AddResult × Store :=
  if !(strptimeYmd date) then
    (.error "Date must be in YYYY-MM-DD format", s)
  else if amount ≤ 0 then
    (.error "Amount must be positive", s)
  else
    (.ok s.nextId,
     { rows := s.rows ++ [⟨s.nextId, date, amount, category, subcategory, note⟩],
       nextId := s.nextId + 1 })

/-- SQLite TEXT comparison `a <= b`: lexicographic on the byte
sequences, which for UTF-8 agrees with code-point order. -/
def charListLe : List Char → List Char → Bool
  | [], _ => true
  | _ :: _, [] => false
  | a :: as, b :: bs => if a = b then charListLe as bs else decide (a < b)

/-- TEXT `<=` on strings. -/
def textLe (a b : String) : Bool := charListLe a.data b.data

/-- The WHERE clause built by `get_expenses`: each of the three
predicates is appended only when the corresponding argument is truthy
(Python `if category:` and friends are false both for `None` and for the
empty string). -/
def rowFilter (category start_date end_date : Option String) (r : Expense) : Bool :=
  (match category with
   | none => true
   | some c => c == "" || r.category == c) &&
  (match start_date with
   | none => true
   | some sd => sd == "" || textLe sd r.date) &&
  (match end_date with
   | none => true
   | some ed => ed == "" || textLe r.date ed)

/-- The ORDER BY date DESC comparison (ties keep store order: the sort
below is stable). -/
def dateDescLe (a b : Expense) : Bool := textLe b.date a.date

/-- Result dictionary of `get_expenses`: the row list and its length, or
an error message. -/
inductive GetResult where
  | ok : List Expense → Nat → GetResult
  | error : String → GetResult
deriving DecidableEq

/-- Row list carried by a `get_expenses` result. -/
def GetResult.expensesOf : GetResult → List Expense
  | .ok es _ => es
  | .error _ => []

/-- Embedding of the `get_expenses` tool: SELECT with the optional
predicates, ORDER BY date DESC, LIMIT.  The `limit` argument is a
Python int; SQLite treats a negative LIMIT bound as no limit at all and
returns every remaining row. -/
def get_expenses (s : Store) (category start_date end_date : Option String)
    (limit : Int) : GetResult :=
  let filtered := s.rows.filter (rowFilter category start_date end_date)
  let sorted := filtered.mergeSort dateDescLe
  let result := if limit < 0 then sorted else sorted.take limit.toNat
  .ok result result.length

/-- One row of the `by_category` breakdown: `category, SUM(amount) as
total, COUNT(*) as count`. -/
structure CatRow where
  category : String
  total : ℚ
  count : Nat
deriving DecidableEq

/-- The ORDER BY total DESC comparison of the breakdown query. -/
def totalDescLe (a b : CatRow) : Bool := decide (b.total ≤ a.total)

/-- The GROUP BY category rows of the summary query: one row per
distinct category of the filtered set, ordered by summed amount
descending. -/
def byCategory (l : List Expense) : List CatRow :=
  ((l.map (fun r => r.category)).dedup.map (fun c =>
    let g := l.filter (fun r => r.category == c)
    { category := c, total := (g.map (fun r => r.amount)).sum, count := g.length }
    )).mergeSort totalDescLe

/-- SQL `SUM(amount)`: NULL on the empty set, otherwise the sum. -/
def sqlSum : List ℚ → Option ℚ
  | [] => none
  | l => some l.sum

/-- Result dictionary of `get_expense_summary`: overall total, overall
count and the per-category breakdown, or an error message. -/
inductive SummaryResult where
  | ok : ℚ → Nat → List CatRow → SummaryResult
  | error : String → SummaryResult
deriving DecidableEq

/-- Overall total carried by a summary result. -/
def SummaryResult.totalOf : SummaryResult → ℚ
  | .ok t _ _ => t
  | .error _ => 0

/-- Overall count carried by a summary result. -/
def SummaryResult.countOf : SummaryResult → Nat
  | .ok _ c _ => c
  | .error _ => 0

/-- Breakdown carried by a summary result. -/
def SummaryResult.byCategoryOf : SummaryResult → List CatRow
  | .ok _ _ b => b
  | .error _ => []

/-- Embedding of the `get_expense_summary` tool.  Both the grouped and
the ungrouped query run over the same optional date filters (the
`params` slice passed to the second query is exactly `params`, since the
summary query's parameter list holds precisely the truthy date
arguments).  `overall["total"] or 0` turns SQL NULL (empty set) into 0;
on numbers the `or 0` is the identity on values, 0 staying 0.
COUNT(*) is never NULL. -/
def get_expense_summary (s : Store) (start_date end_date : Option String) :
    SummaryResult :=
  let filtered := s.rows.filter (rowFilter none start_date end_date)
  .ok ((sqlSum (filtered.map (fun r => r.amount))).getD 0)
      filtered.length
      (byCategory filtered)

/-- Result dictionary of `delete_expense`. -/
inductive DeleteResult where
  | ok : String → DeleteResult
  | error : String → DeleteResult
deriving DecidableEq

/-- Embedding of the `delete_expense` tool: DELETE WHERE id = ?, then
report not-found when the rowcount is zero. -/
def delete_expense (s : Store) (i : Nat) : DeleteResult × Store :=
  let s' : Store := { s with rows := s.rows.filter (fun r => !(r.id == i)) }
  if s.rows.countP (fun r => r.id == i) = 0 then
    (.error ("No expense found with ID " ++ toString i), s')
  else
    (.ok ("Deleted expense " ++ toString i), s')

/-- Positivity of every stored amount. -/
def AmountsPos (s : Store) : Prop := ∀ r ∈ s.rows, 0 < r.amount

/-- C4: for every amount at most zero, with any date and category,
add_expense yields an error result and leaves the store unchanged. -/
theorem add_expense_nonpositive_rejected (s : Store) (d : String) (a : ℚ)
    (c sc n : String) (ha : a ≤ 0) :
    (∃ msg, (add_expense s d a c sc n).fst = AddResult.error msg) ∧
    (add_expense s d a c sc n).snd = s := by
  unfold add_expense
  cases hd : strptimeYmd d
  · simp [hd]
  · simp [hd, ha]

theorem add_expense_nonpositive_rejected_witness :
    (0 : ℚ) ≤ 0 ∧
    ((∃ msg, (add_expense init_db "2024-01-15" 0 "Food" "" "").fst = AddResult.error msg) ∧
     (add_expense init_db "2024-01-15" 0 "Food" "" "").snd = init_db) :=
  ⟨by decide, add_expense_nonpositive_rejected init_db "2024-01-15" 0 "Food" "" "" (by decide)⟩

/-- C10: the date is validated before the amount, so a request whose
date is malformed and whose amount is non-positive gets the date-format
error message. -/
theorem add_expense_date_error_has_priority (s : Store) (d : String) (a : ℚ)
    (c sc n : String) (hd : strptimeYmd d = false) (_ha : a ≤ 0) :
    (add_expense s d a c sc n).fst = AddResult.error "Date must be in YYYY-MM-DD format" := by
  simp [add_expense, hd]

theorem add_expense_date_error_has_priority_witness :
    strptimeYmd "2024/01/01" = false ∧ (0 : ℚ) ≤ 0 ∧
    (add_expense init_db "2024/01/01" 0 "Food" "" "").fst
      = AddResult.error "Date must be in YYYY-MM-DD format" :=
  ⟨by decide, by decide,
   add_expense_date_error_has_priority init_db "2024/01/01" 0 "Food" "" "" (by decide) (by decide)⟩

/-- C9: an empty-string category argument is falsy in Python, so no
category predicate is appended and the call agrees with the call that
omits the category filter. -/
theorem get_expenses_empty_category_no_filter (s : Store)
    (sd ed : Option String) (limit : Int) :
    get_expenses s (some "") sd ed limit = get_expenses s none sd ed limit := by
  have h : s.rows.filter (rowFilter (some "") sd ed)
      = s.rows.filter (rowFilter none sd ed) :=
    List.filter_congr (fun r _ => by simp [rowFilter])
  simp only [get_expenses, h]

/-- C6: when the date filters match no stored record, the summary is
total 0, count 0 and an empty breakdown. -/
theorem get_expense_summary_empty (s : Store) (sd ed : Option String)
    (h : s.rows.filter (rowFilter none sd ed) = []) :
    get_expense_summary s sd ed = SummaryResult.ok 0 0 [] := by
  simp [get_expense_summary, h, byCategory, sqlSum]

/-- C8: strict positivity of every stored amount is preserved by the
mutating operations (the read-only operations return no store at all). -/
theorem amounts_pos_preserved (s : Store) (h : AmountsPos s) (d : String)
    (a : ℚ) (c sc n : String) (i : Nat) :
    AmountsPos (add_expense s d a c sc n).snd ∧
    AmountsPos (delete_expense s i).snd := by
  constructor
  · intro r hr
    unfold add_expense at hr
    by_cases hd : strptimeYmd d = true
    · by_cases ha : a ≤ 0
      · simp [hd, ha] at hr
        exact h r hr
      · simp [hd, ha] at hr
        rcases hr with hr | hr
        · exact h r hr
        · rw [hr]
          exact lt_of_not_le ha
    · simp [Bool.not_eq_true] at hd
      simp [hd] at hr
      exact h r hr
  · intro r hr
    unfold delete_expense at hr
    have hr' : r ∈ s.rows := by
      by_cases h0 : s.rows.countP (fun r => r.id == i) = 0 <;>
        simp [h0] at hr <;> exact hr.1
    exact h r hr'

theorem amounts_pos_preserved_witness :
    AmountsPos init_db ∧
    (AmountsPos (add_expense init_db "2024-01-15" 7 "Food" "" "").snd ∧
     AmountsPos (delete_expense init_db 1).snd) :=
  ⟨by intro r hr; simp [init_db] at hr,
   amounts_pos_preserved init_db (by intro r hr; simp [init_db] at hr)
     "2024-01-15" 7 "Food" "" "" 1⟩

/-- A convenient notion of "id present in the store". -/
def hasId (s : Store) (i : Nat) : Prop := ∃ r ∈ s.rows, r.id = i

instance (s : Store) (i : Nat) : Decidable (hasId s i) := by
  unfold hasId; infer_instance

/-- A store used to instantiate the hypothesised theorems below. -/
def sampleStore : Store :=
  { rows := [⟨1, "2024-01-15", 7, "Food", "", ""⟩], nextId := 2 }

theorem get_expense_summary_empty_witness :
    sampleStore.rows.filter (rowFilter none (some "2025-01-01") none) = [] ∧
    get_expense_summary sampleStore (some "2025-01-01") none = SummaryResult.ok 0 0 [] :=
  ⟨by decide, get_expense_summary_empty sampleStore (some "2025-01-01") none (by decide)⟩

/-- C5: deleting a present id reports ok for that id and removes exactly
the records carrying that id; deleting an absent id reports the
not-found error for that id and leaves the store untouched; immediately
repeating any delete of the same id reports the not-found error. -/
theorem delete_expense_semantics (s : Store) (i : Nat) :
    (hasId s i →
       (delete_expense s i).fst = DeleteResult.ok ("Deleted expense " ++ toString i) ∧
       (∀ r, r ∈ (delete_expense s i).snd.rows ↔ r ∈ s.rows ∧ r.id ≠ i) ∧
       ((s.rows.map Expense.id).Nodup →
          (delete_expense s i).snd.rows.length + 1 = s.rows.length)) ∧
    (¬ hasId s i →
       (delete_expense s i).fst
         = DeleteResult.error ("No expense found with ID " ++ toString i) ∧
       (delete_expense s i).snd = s) ∧
    (delete_expense (delete_expense s i).snd i).fst
      = DeleteResult.error ("No expense found with ID " ++ toString i) := by
  have hrows : (delete_expense s i).snd.rows = s.rows.filter (fun r => !(r.id == i)) := by
    unfold delete_expense
    by_cases h0 : s.rows.countP (fun r => r.id == i) = 0 <;> simp [h0]
  refine ⟨?_, ?_, ?_⟩
  · intro ⟨r, hr, hri⟩
    have hcount : s.rows.countP (fun r => r.id == i) ≠ 0 := by
      intro h0
      exact (List.countP_eq_zero.1 h0) r hr (by simp [hri])
    refine ⟨?_, ?_, ?_⟩
    · unfold delete_expense
      simp [hcount]
    · intro x
      rw [hrows, List.mem_filter]
      simp
    · intro hnd
      have h1 : s.rows.countP (fun r => r.id == i) = 1 := by
        have hmm : i ∈ s.rows.map Expense.id := List.mem_map.2 ⟨r, hr, hri⟩
        have := List.count_eq_one_of_mem hnd hmm
        rw [List.count, List.countP_map] at this
        simpa using this
      have h2 : (s.rows.filter (fun r => r.id == i)).length
          = s.rows.countP (fun r => r.id == i) :=
        (List.countP_eq_length_filter _ _).symm
      have h3 : (s.rows.filter (fun r => r.id == i)).length
            + (s.rows.filter (fun r => !(r.id == i))).length = s.rows.length := by
        have hperm := (List.filter_append_perm (fun r => r.id == i) s.rows).length_eq
        rw [List.length_append] at hperm
        exact hperm
      rw [hrows]
      omega
  · intro hno
    have hcount : s.rows.countP (fun r => r.id == i) = 0 := by
      apply List.countP_eq_zero.2
      intro r hr hri
      exact hno ⟨r, hr, by simpa using hri⟩
    constructor
    · unfold delete_expense
      simp [hcount]
    · have hfix : s.rows.filter (fun r => !(r.id == i)) = s.rows := by
        apply List.filter_eq_self.2
        intro r hr
        have := List.countP_eq_zero.1 hcount r hr
        simpa using this
      unfold delete_expense
      simp [hcount, hfix]
  · set t := (delete_expense s i).snd with ht
    have hcount2 : t.rows.countP (fun r => r.id == i) = 0 := by
      rw [ht, hrows]
      apply List.countP_eq_zero.2
      intro r hr
      have := (List.mem_filter.1 hr).2
      simpa using this
    unfold delete_expense
    simp [hcount2]

theorem delete_expense_semantics_witness :
    (delete_expense sampleStore 1).fst = DeleteResult.ok "Deleted expense 1" ∧
    (delete_expense (delete_expense sampleStore 1).snd 1).fst
      = DeleteResult.error "No expense found with ID 1" :=
  ⟨((delete_expense_semantics sampleStore 1).1 (by decide)).1,
   (delete_expense_semantics sampleStore 1).2.2⟩

/-- Transitivity of the TEXT comparison. -/
theorem charListLe_trans : ∀ (as bs cs : List Char),
    charListLe as bs = true → charListLe bs cs = true → charListLe as cs = true
  | [], _, _, _, _ => rfl
  | _ :: _, [], _, h1, _ => by simp [charListLe] at h1
  | _ :: _, _ :: _, [], _, h2 => by simp [charListLe] at h2
  | a :: as, b :: bs, c :: cs, h1, h2 => by
      simp only [charListLe] at h1 h2 ⊢
      by_cases hab : a = b
      · subst hab
        by_cases hbc : a = c
        · subst hbc
          simp only [if_pos rfl] at h1 h2 ⊢
          exact charListLe_trans as bs cs h1 h2
        · simp only [if_neg hbc] at h2 ⊢
          simp only [if_pos rfl] at h1
          exact h2
      · by_cases hbc : b = c
        · subst hbc
          simp only [if_neg hab] at h1 ⊢
          exact h1
        · simp only [if_neg hab, if_neg hbc, decide_eq_true_eq] at h1 h2
          have hac : a < c := lt_trans h1 h2
          simp [if_neg (ne_of_lt hac), hac]

/-- Totality of the TEXT comparison. -/
theorem charListLe_total : ∀ (as bs : List Char),
    (charListLe as bs || charListLe bs as) = true
  | [], _ => by simp [charListLe]
  | _ :: _, [] => by simp [charListLe]
  | a :: as, b :: bs => by
      simp only [charListLe]
      by_cases hab : a = b
      · subst hab
        simp only [if_pos rfl]
        exact charListLe_total as bs
      · rcases lt_or_gt_of_ne hab with h | h
        · simp [if_neg hab, h]
        · simp [if_neg hab, if_neg (Ne.symm hab), h]

theorem dateDescLe_trans (a b c : Expense) :
    dateDescLe a b = true → dateDescLe b c = true → dateDescLe a c = true :=
  fun h1 h2 => charListLe_trans _ _ _ h2 h1

theorem dateDescLe_total (a b : Expense) :
    (dateDescLe a b || dateDescLe b a) = true :=
  charListLe_total _ _

/-- C3 counterexample: with all three filters supplied and limit -1,
SQLite treats the negative LIMIT bound as no limit and returns every
matching row, so the returned list is longer than the limit. -/
theorem get_expenses_negative_limit_uncapped :
    (get_expenses sampleStore (some "Food") (some "2024-01-01")
        (some "2024-01-31") (-1)).expensesOf.length = 1 ∧
    ¬ (((get_expenses sampleStore (some "Food") (some "2024-01-01")
        (some "2024-01-31") (-1)).expensesOf.length : Int) ≤ -1) := by
  have h1 : sampleStore.rows.filter
      (rowFilter (some "Food") (some "2024-01-01") (some "2024-01-31"))
      = [⟨1, "2024-01-15", 7, "Food", "", ""⟩] := by decide
  have h2 : (get_expenses sampleStore (some "Food") (some "2024-01-01")
      (some "2024-01-31") (-1)).expensesOf
      = [⟨1, "2024-01-15", 7, "Food", "", ""⟩] := by
    simp only [get_expenses, GetResult.expensesOf, h1, List.mergeSort_singleton]
    rw [if_pos (by decide : ((-1 : Int) < 0))]
  rw [h2]
  exact ⟨rfl, by decide⟩

/-- C3 amended: with all three filters supplied (non-empty, as Python
treats the empty string as no filter), every returned record matches
the category exactly and lies in the inclusive date range, and the list
is sorted by date descending; when the limit is non-negative the length
is bounded by it (a negative limit reaches SQLite LIMIT, which disables
the cap). -/
theorem get_expenses_filter_composition (s : Store) (c sd ed : String)
    (limit : Int) (hc : c ≠ "") (hsd : sd ≠ "") (hed : ed ≠ "") :
    (∀ r ∈ (get_expenses s (some c) (some sd) (some ed) limit).expensesOf,
        r.category = c ∧ textLe sd r.date = true ∧ textLe r.date ed = true) ∧
    (get_expenses s (some c) (some sd) (some ed) limit).expensesOf.Pairwise
        (fun a b => textLe b.date a.date = true) ∧
    (0 ≤ limit →
      ((get_expenses s (some c) (some sd) (some ed) limit).expensesOf.length : Int)
        ≤ limit) := by
  set L := (s.rows.filter (rowFilter (some c) (some sd) (some ed))).mergeSort
    dateDescLe with hL
  have hexp : (get_expenses s (some c) (some sd) (some ed) limit).expensesOf
      = if limit < 0 then L else L.take limit.toNat := rfl
  refine ⟨?_, ?_, ?_⟩
  · intro r hr
    rw [hexp] at hr
    have h1 : r ∈ L := by
      by_cases hneg : limit < 0
      · rw [if_pos hneg] at hr; exact hr
      · rw [if_neg hneg] at hr
        exact List.Sublist.mem hr (List.take_sublist _ _)
    have h2 : r ∈ s.rows.filter (rowFilter (some c) (some sd) (some ed)) :=
      (List.mergeSort_perm _ _).mem_iff.1 h1
    have h3 := (List.mem_filter.1 h2).2
    simp only [rowFilter, Bool.and_eq_true, Bool.or_eq_true, beq_iff_eq] at h3
    obtain ⟨⟨hcat, hsd2⟩, hed2⟩ := h3
    refine ⟨?_, ?_, ?_⟩
    · rcases hcat with h | h
      · exact absurd h hc
      · exact h
    · rcases hsd2 with h | h
      · exact absurd h hsd
      · exact h
    · rcases hed2 with h | h
      · exact absurd h hed
      · exact h
  · rw [hexp]
    have hsorted : L.Pairwise (fun a b => dateDescLe a b = true) := by
      rw [hL]
      exact List.sorted_mergeSort dateDescLe_trans dateDescLe_total
        (s.rows.filter (rowFilter (some c) (some sd) (some ed)))
    by_cases hneg : limit < 0
    · rw [if_pos hneg]; exact hsorted
    · rw [if_neg hneg]
      exact List.Pairwise.sublist (List.take_sublist _ _) hsorted
  · intro hpos
    rw [hexp, if_neg (not_lt.2 hpos)]
    have hlen : (L.take limit.toNat).length ≤ limit.toNat := by
      rw [List.length_take]; exact min_le_left _ _
    calc ((L.take limit.toNat).length : Int) ≤ (limit.toNat : Int) := by
          exact_mod_cast hlen
      _ = limit := Int.toNat_of_nonneg hpos

theorem get_expenses_filter_composition_witness :
    ("Food" : String) ≠ "" ∧ ("2024-01-01" : String) ≠ "" ∧ ("2024-01-31" : String) ≠ "" ∧
    ((∀ r ∈ (get_expenses sampleStore (some "Food") (some "2024-01-01")
          (some "2024-01-31") 50).expensesOf,
        r.category = "Food" ∧ textLe "2024-01-01" r.date = true ∧
          textLe r.date "2024-01-31" = true) ∧
     (get_expenses sampleStore (some "Food") (some "2024-01-01")
         (some "2024-01-31") 50).expensesOf.Pairwise
        (fun a b => textLe b.date a.date = true) ∧
     ((0 : Int) ≤ 50 →
       ((get_expenses sampleStore (some "Food") (some "2024-01-01")
           (some "2024-01-31") 50).expensesOf.length : Int) ≤ 50)) :=
  ⟨by decide, by decide, by decide,
   get_expenses_filter_composition sampleStore "Food" "2024-01-01" "2024-01-31" 50
     (by decide) (by decide) (by decide)⟩

/-- C7: after a successful insert (well-formed date, positive amount),
a get_expenses call filtered on the inserted category with a sufficient
limit returns a record with exactly the inserted date, amount and
category. -/
theorem add_expense_roundtrip (s : Store) (d : String) (a : ℚ)
    (c sc n : String) (limit : Int) (hd : strptimeYmd d = true) (ha : 0 < a)
    (hlim : (s.rows.length : Int) + 1 ≤ limit) :
    ∃ r ∈ (get_expenses (add_expense s d a c sc n).snd
        (some c) none none limit).expensesOf,
      r.date = d ∧ r.amount = a ∧ r.category = c := by
  set e : Expense := ⟨s.nextId, d, a, c, sc, n⟩ with he
  have hsnd : (add_expense s d a c sc n).snd
      = { rows := s.rows ++ [e], nextId := s.nextId + 1 } := by
    simp [add_expense, hd, not_le.2 ha]
  refine ⟨e, ?_, rfl, rfl, rfl⟩
  rw [hsnd]
  show e ∈ (if limit < 0 then ((s.rows ++ [e]).filter
      (rowFilter (some c) none none)).mergeSort dateDescLe
    else (((s.rows ++ [e]).filter
      (rowFilter (some c) none none)).mergeSort dateDescLe).take limit.toNat)
  have hneg : ¬ limit < 0 := by omega
  rw [if_neg hneg]
  have hmemf : e ∈ (s.rows ++ [e]).filter (rowFilter (some c) none none) :=
    List.mem_filter.2 ⟨by simp, by simp [rowFilter, he]⟩
  have hlen : (((s.rows ++ [e]).filter
      (rowFilter (some c) none none)).mergeSort dateDescLe).length ≤ limit.toNat := by
    rw [List.length_mergeSort]
    have h1 : ((s.rows ++ [e]).filter (rowFilter (some c) none none)).length
        ≤ s.rows.length + 1 := by
      calc ((s.rows ++ [e]).filter (rowFilter (some c) none none)).length
          ≤ (s.rows ++ [e]).length := List.length_filter_le _ _
        _ = s.rows.length + 1 := by simp
    omega
  rw [List.take_of_length_le hlen]
  exact (List.mergeSort_perm _ _).mem_iff.2 hmemf

theorem add_expense_roundtrip_witness :
    strptimeYmd "2024-01-15" = true ∧ (0 : ℚ) < 85/2 ∧
    (init_db.rows.length : Int) + 1 ≤ 50 ∧
    ∃ r ∈ (get_expenses (add_expense init_db "2024-01-15" (85/2) "Food" "" "").snd
        (some "Food") none none 50).expensesOf,
      r.date = "2024-01-15" ∧ r.amount = 85/2 ∧ r.category = "Food" :=
  ⟨by decide, by norm_num, by decide,
   add_expense_roundtrip init_db "2024-01-15" (85/2) "Food" "" "" 50
     (by decide) (by norm_num) (by decide)⟩

/-- Summing an indicator over a duplicate-free key list picks the single
matching key. -/
theorem sum_map_single_key {M : Type} [AddCommMonoid M] (a : M) (c : String) :
    ∀ (ks : List String), ks.Nodup → c ∈ ks →
      (ks.map (fun k => if c = k then a else 0)).sum = a
  | [], _, hmem => absurd hmem (List.not_mem_nil c)
  | k :: ks, hnd, hmem => by
      by_cases hck : c = k
      · subst hck
        have hnotin : c ∉ ks := (List.nodup_cons.1 hnd).1
        have hz : (ks.map (fun x => if c = x then a else 0)).sum = 0 := by
          apply List.sum_eq_zero
          intro x hx
          rcases List.mem_map.1 hx with ⟨k2, hk2, hval⟩
          have hne : c ≠ k2 := fun h => hnotin (h ▸ hk2)
          simpa [hne] using hval.symm
        simp [hz]
      · have hmem2 : c ∈ ks := by
          rcases List.mem_cons.1 hmem with h | h
          · exact absurd h hck
          · exact h
        have ih := sum_map_single_key a c ks (List.nodup_cons.1 hnd).2 hmem2
        simp [hck, ih]

/-- Partition identity: summing any row weight within each
category-fiber over a duplicate-free, covering key list equals summing
it over the whole row list. -/
theorem sum_filter_by_key {M : Type} [AddCommMonoid M] (f : Expense → M) :
    ∀ (l : List Expense) (ks : List String), ks.Nodup →
      (∀ r ∈ l, r.category ∈ ks) →
      (ks.map (fun k => ((l.filter (fun r => r.category == k)).map f).sum)).sum
        = (l.map f).sum
  | [], ks, _, _ => by
      apply List.sum_eq_zero
      intro x hx
      rcases List.mem_map.1 hx with ⟨k, _, hval⟩
      simpa using hval.symm
  | r :: t, ks, hnd, hmem => by
      have hsum : ∀ k ∈ ks,
          (((r :: t).filter (fun x => x.category == k)).map f).sum
            = (if r.category = k then f r else 0)
              + ((t.filter (fun x => x.category == k)).map f).sum := by
        intro k _
        by_cases h : r.category = k
        · simp [List.filter_cons, h]
        · simp [List.filter_cons, h]
      calc (ks.map (fun k =>
              (((r :: t).filter (fun x => x.category == k)).map f).sum)).sum
          = (ks.map (fun k => (if r.category = k then f r else 0)
              + ((t.filter (fun x => x.category == k)).map f).sum)).sum := by
            rw [List.map_congr_left hsum]
        _ = (ks.map (fun k => if r.category = k then f r else 0)).sum
              + (ks.map (fun k =>
                  ((t.filter (fun x => x.category == k)).map f).sum)).sum :=
            List.sum_map_add
        _ = f r + (t.map f).sum := by
            rw [sum_map_single_key (f r) r.category ks hnd (hmem r (by simp)),
                sum_filter_by_key f t ks hnd (fun x hx => hmem x (by simp [hx]))]
        _ = ((r :: t).map f).sum := by simp

/-- Length of a list as the sum of unit weights. -/
theorem sum_map_one_eq_length (xs : List Expense) :
    (xs.map (fun _ => (1 : Nat))).sum = xs.length := by
  induction xs with
  | nil => rfl
  | cons x t ih => simp [ih, Nat.add_comm]

/-- The `or 0` applied to a SQL sum is the plain sum in the embedding. -/
theorem sqlSum_getD (xs : List ℚ) : (sqlSum xs).getD 0 = xs.sum := by
  cases xs <;> simp [sqlSum]

/-- C1: in every summary, the per-category totals of the breakdown add
up to the overall total, and the per-category counts add up to the
overall count, for any store and any date filters. -/
theorem get_expense_summary_consistency (s : Store) (sd ed : Option String) :
    (((get_expense_summary s sd ed).byCategoryOf).map (fun row => row.total)).sum
        = (get_expense_summary s sd ed).totalOf ∧
    (((get_expense_summary s sd ed).byCategoryOf).map (fun row => row.count)).sum
        = (get_expense_summary s sd ed).countOf := by
  have hnd : ((s.rows.filter (rowFilter none sd ed)).map
      (fun r => r.category)).dedup.Nodup := List.nodup_dedup _
  have hmem : ∀ r ∈ s.rows.filter (rowFilter none sd ed),
      r.category ∈ ((s.rows.filter (rowFilter none sd ed)).map
        (fun r => r.category)).dedup :=
    fun r hr => List.mem_dedup.2 (List.mem_map.2 ⟨r, hr, rfl⟩)
  constructor
  · show ((byCategory (s.rows.filter (rowFilter none sd ed))).map
        (fun row => row.total)).sum
      = (sqlSum ((s.rows.filter (rowFilter none sd ed)).map
          (fun r => r.amount))).getD 0
    rw [sqlSum_getD]
    simp only [byCategory]
    rw [((List.mergeSort_perm _ totalDescLe).map (fun row : CatRow => row.total)).sum_eq]
    rw [List.map_map]
    have := sum_filter_by_key (fun r => r.amount)
      (s.rows.filter (rowFilter none sd ed)) _ hnd hmem
    rw [← this]
    rfl
  · show ((byCategory (s.rows.filter (rowFilter none sd ed))).map
        (fun row => row.count)).sum
      = (s.rows.filter (rowFilter none sd ed)).length
    simp only [byCategory]
    rw [((List.mergeSort_perm _ totalDescLe).map (fun row : CatRow => row.count)).sum_eq]
    rw [List.map_map]
    have hpart := sum_filter_by_key (fun _ => (1 : Nat))
      (s.rows.filter (rowFilter none sd ed)) _ hnd hmem
    rw [sum_map_one_eq_length] at hpart
    rw [← hpart]
    apply congrArg
    apply List.map_congr_left
    intro k _
    show ((s.rows.filter (rowFilter none sd ed)).filter
        (fun r => r.category == k)).length
      = (((s.rows.filter (rowFilter none sd ed)).filter
          (fun r => r.category == k)).map (fun _ => (1 : Nat))).sum
    rw [sum_map_one_eq_length]

/-- Spec-side predicate following the claim's words literally: the
string must be exactly a 4-digit year, a hyphen, a 2-digit month in
01–12, a hyphen, and a 2-digit day valid for that month and year, with
no other characters. -/
def specStrictDate (s : String) : Bool :=
  match s.data with
  | [y1, y2, y3, y4, '-', m1, m2, '-', d1, d2] =>
      isDigit y1 && isDigit y2 && isDigit y3 && isDigit y4 &&
      isDigit m1 && isDigit m2 && isDigit d1 && isDigit d2 &&
      decide (1 ≤ natOfDigits [m1, m2]) && decide (natOfDigits [m1, m2] ≤ 12) &&
      decide (1 ≤ natOfDigits [d1, d2]) &&
      decide (natOfDigits [d1, d2]
        ≤ daysInMonth (natOfDigits [y1, y2, y3, y4]) (natOfDigits [m1, m2]))
  | _ => false

/-- C2 counterexample: the claim says a month field that is not exactly
two digits must be rejected, but CPython's strptime accepts one-digit
months (regex alternative `[1-9]`), so add_expense succeeds on
"2024-1-05" even though the strict pattern rejects it. -/
theorem add_expense_accepts_one_digit_month :
    (add_expense init_db "2024-1-05" 1 "Food" "" "").fst = AddResult.ok 1 ∧
    specStrictDate "2024-1-05" = false := by decide


/-- Cutting a list at a marked element, when everything before it
satisfies the predicate and the mark does not. -/
theorem takeWhile_middle (p : Char → Bool) (l1 : List Char) (x : Char)
    (l2 : List Char) (h : ∀ a ∈ l1, p a = true) (hx : p x = false) :
    (l1 ++ x :: l2).takeWhile p = l1 ∧ (l1 ++ x :: l2).dropWhile p = x :: l2 := by
  induction l1 with
  | nil => simp [List.takeWhile_cons, List.dropWhile_cons, hx]
  | cons a t ih =>
      have hpa : p a = true := h a (by simp)
      have iht := ih (fun b hb => h b (by simp [hb]))
      simp [List.takeWhile_cons, List.dropWhile_cons, hpa, iht.1, iht.2]

/-- An Nd digit is never the separator. -/
theorem isNd_ne_dash {c : Char} (h : isNd c = true) : (c != '-') = true := by
  simp only [bne_iff_ne, ne_eq]
  intro hc
  subst hc
  exact absurd h (by decide)

/-- The first Nd run starts at the ASCII digits, so an ASCII digit is an
Nd digit with its usual value. -/
theorem uniDigitVal?_ascii {c : Char} (h1 : '0' ≤ c) (h2 : c ≤ '9') :
    uniDigitVal? c = some (c.toNat - 48) := by
  have h1' : 48 ≤ c.toNat := h1
  have h2' : c.toNat ≤ 57 := h2
  unfold uniDigitVal? ndZeroStarts
  rw [List.findSome?_cons]
  rw [if_pos ⟨h1', by omega⟩]

/-- int() value of a one-character group. -/
theorem natOfDigits_one (c : Char) :
    natOfDigits [c] = (uniDigitVal? c).getD 0 := by
  simp [natOfDigits]

/-- int() value of a two-character group. -/
theorem natOfDigits_two (c1 c2 : Char) :
    natOfDigits [c1, c2]
      = 10 * (uniDigitVal? c1).getD 0 + (uniDigitVal? c2).getD 0 := by
  simp [natOfDigits]

/-- Value facts about an ASCII digit in `[1-9]`. -/
theorem ascii_val_pos {c : Char} (h1 : '1' ≤ c) (h2 : c ≤ '9') :
    (uniDigitVal? c).getD 0 = digitVal c ∧ 1 ≤ digitVal c ∧ digitVal c ≤ 9 := by
  have h0 : '0' ≤ c := le_trans (by decide) h1
  have hv := uniDigitVal?_ascii h0 h2
  have h1' : 49 ≤ c.toNat := h1
  have h2' : c.toNat ≤ 57 := h2
  refine ⟨by rw [hv]; rfl, ?_, ?_⟩
  · show 1 ≤ c.toNat - 48
    omega
  · show c.toNat - 48 ≤ 9
    omega

/-- Value facts about an ASCII digit in `[0-9]`. -/
theorem ascii_val {c : Char} (h1 : '0' ≤ c) (h2 : c ≤ '9') :
    (uniDigitVal? c).getD 0 = digitVal c ∧ digitVal c ≤ 9 := by
  have hv := uniDigitVal?_ascii h1 h2
  have h2' : c.toNat ≤ 57 := h2
  refine ⟨by rw [hv]; rfl, ?_⟩
  show c.toNat - 48 ≤ 9
  omega

/-- Shape of a month field under the %m regex `1[0-2]|0[1-9]|[1-9]`. -/
def MonthShape (ms : List Char) : Prop :=
  (∃ c, ms = [c] ∧ '1' ≤ c ∧ c ≤ '9') ∨
  (∃ c1 c2, ms = [c1, c2] ∧
    ((c1 = '1' ∧ '0' ≤ c2 ∧ c2 ≤ '2') ∨ (c1 = '0' ∧ '1' ≤ c2 ∧ c2 ≤ '9')))

/-- Shape of a day field under the %d regex
`3[0-1]|[1-2]\d|0[1-9]|[1-9]| [1-9]` of CPython 3.11. -/
def DayShape (ds : List Char) : Prop :=
  (∃ c, ds = [c] ∧ '1' ≤ c ∧ c ≤ '9') ∨
  (∃ c1 c2, ds = [c1, c2] ∧
    ((c1 = '3' ∧ (c2 = '0' ∨ c2 = '1')) ∨
     ((c1 = '1' ∨ c1 = '2') ∧ isNd c2 = true) ∨
     (c1 = '0' ∧ '1' ≤ c2 ∧ c2 ≤ '9') ∨
     (c1 = ' ' ∧ '1' ≤ c2 ∧ c2 ≤ '9')))

/-- Month-field characters are never the separator. -/
theorem monthShape_ne_dash {ms : List Char} (h : MonthShape ms) :
    ∀ c ∈ ms, (c != '-') = true := by
  rcases h with ⟨c, rfl, hc1, hc2⟩ | ⟨c1, c2, rfl, hc⟩
  · intro x hx
    simp only [List.mem_singleton] at hx
    subst hx
    simp only [bne_iff_ne, ne_eq]
    intro h0
    subst h0
    exact absurd hc1 (by decide)
  · intro x hx
    simp only [List.mem_cons, List.not_mem_nil, or_false] at hx
    rcases hx with rfl | rfl
    · rcases hc with ⟨hc1, _⟩ | ⟨hc1, _⟩ <;> subst hc1 <;> decide
    · simp only [bne_iff_ne, ne_eq]
      intro h0
      subst h0
      rcases hc with ⟨_, hc2a, _⟩ | ⟨_, hc2a, _⟩
      · exact absurd hc2a (by decide)
      · exact absurd hc2a (by decide)

/-- Day-field characters are never the separator. -/
theorem dayShape_ne_dash {ds : List Char} (h : DayShape ds) :
    ∀ c ∈ ds, (c != '-') = true := by
  rcases h with ⟨c, rfl, hc1, hc2⟩ | ⟨c1, c2, rfl, hc⟩
  · intro x hx
    simp only [List.mem_singleton] at hx
    subst hx
    simp only [bne_iff_ne, ne_eq]
    intro h0
    subst h0
    exact absurd hc1 (by decide)
  · intro x hx
    simp only [List.mem_cons, List.not_mem_nil, or_false] at hx
    rcases hx with rfl | rfl
    · rcases hc with ⟨hc1, _⟩ | ⟨hc1, _⟩ | ⟨hc1, _⟩ | ⟨hc1, _⟩
      · subst hc1; decide
      · rcases hc1 with h0 | h0 <;> subst h0 <;> decide
      · subst hc1; decide
      · subst hc1; decide
    · rcases hc with ⟨_, hc2⟩ | ⟨_, hc2⟩ | ⟨_, hc2a, _⟩ | ⟨_, hc2a, _⟩
      · rcases hc2 with h0 | h0 <;> subst h0 <;> decide
      · exact isNd_ne_dash hc2
      · simp only [bne_iff_ne, ne_eq]
        intro h0
        subst h0
        exact absurd hc2a (by decide)
      · simp only [bne_iff_ne, ne_eq]
        intro h0
        subst h0
        exact absurd hc2a (by decide)

/-- What acceptance by the %m field means. -/
theorem monthField?_eq_some : ∀ {ms : List Char} {m : Nat},
    monthField? ms = some m →
    MonthShape ms ∧ m = natOfDigits ms ∧ 1 ≤ m ∧ m ≤ 12
  | [], _, h => by simp [monthField?] at h
  | [c], m, h => by
      simp only [monthField?] at h
      split at h
      next hc =>
        injection h with h
        subst h
        obtain ⟨hbr, h1, h9⟩ := ascii_val_pos hc.1 hc.2
        refine ⟨Or.inl ⟨c, rfl, hc⟩, ?_, h1, by omega⟩
        rw [natOfDigits_one, hbr]
      next => exact absurd h (by simp)
  | [c1, c2], m, h => by
      simp only [monthField?] at h
      split at h
      next hc =>
        injection h with h
        subst h
        obtain ⟨hc1, hc2a, hc2b⟩ := hc
        subst hc1
        have hc2b9 : c2 ≤ '9' := le_trans hc2b (by decide)
        obtain ⟨hbr, h9⟩ := ascii_val hc2a hc2b9
        have hd2 : digitVal c2 ≤ 2 := by
          have h2a : c2.toNat ≤ 50 := hc2b
          show c2.toNat - 48 ≤ 2
          omega
        refine ⟨Or.inr ⟨'1', c2, rfl, Or.inl ⟨rfl, hc2a, hc2b⟩⟩, ?_, by omega, by omega⟩
        have hone : (uniDigitVal? '1').getD 0 = 1 := by decide
        rw [natOfDigits_two, hbr, hone]
        try omega
      next =>
        split at h
        next hc =>
          injection h with h
          subst h
          obtain ⟨hc1, hc2a, hc2b⟩ := hc
          subst hc1
          obtain ⟨hbr, h1, h9⟩ := ascii_val_pos hc2a hc2b
          have hzero : (uniDigitVal? '0').getD 0 = 0 := by decide
          refine ⟨Or.inr ⟨'0', c2, rfl, Or.inr ⟨rfl, hc2a, hc2b⟩⟩, ?_, h1, by omega⟩
          rw [natOfDigits_two, hbr, hzero]
          try omega
        next => exact absurd h (by simp)
  | _ :: _ :: _ :: _, _, h => by simp [monthField?] at h

/-- What acceptance by the %d field means. -/
theorem dayField?_eq_some : ∀ {ds : List Char} {d : Nat},
    dayField? ds = some d →
    DayShape ds ∧ d = natOfDigits ds ∧ 1 ≤ d
  | [], _, h => by simp [dayField?] at h
  | [c], d, h => by
      simp only [dayField?] at h
      split at h
      next hc =>
        injection h with h
        subst h
        obtain ⟨hbr, h1, h9⟩ := ascii_val_pos hc.1 hc.2
        refine ⟨Or.inl ⟨c, rfl, hc⟩, ?_, h1⟩
        rw [natOfDigits_one, hbr]
      next => exact absurd h (by simp)
  | [c1, c2], d, h => by
      simp only [dayField?] at h
      split at h
      next hc =>
        injection h with h
        subst h
        obtain ⟨hc1, hc2⟩ := hc
        subst hc1
        refine ⟨Or.inr ⟨'3', c2, rfl, Or.inl ⟨rfl, hc2⟩⟩, ?_, by omega⟩
        rcases hc2 with h0 | h0 <;> subst h0 <;> decide
      next =>
        split at h
        next hc =>
          injection h with h
          subst h
          obtain ⟨hc1, hc2⟩ := hc
          refine ⟨Or.inr ⟨c1, c2, rfl, Or.inr (Or.inl ⟨hc1, hc2⟩)⟩, ?_, ?_⟩
          · rw [natOfDigits_two]
            rcases hc1 with h0 | h0 <;> subst h0
            · have hv : (uniDigitVal? '1').getD 0 = 1 := by decide
              have hd : digitVal '1' = 1 := by decide
              rw [hv, hd]
            · have hv : (uniDigitVal? '2').getD 0 = 2 := by decide
              have hd : digitVal '2' = 2 := by decide
              rw [hv, hd]
          · rcases hc1 with h0 | h0 <;> subst h0
            · have hd : digitVal '1' = 1 := by decide
              rw [hd]
              omega
            · have hd : digitVal '2' = 2 := by decide
              rw [hd]
              omega
        next =>
          split at h
          next hc =>
            injection h with h
            subst h
            obtain ⟨hc1, hc2a, hc2b⟩ := hc
            subst hc1
            obtain ⟨hbr, h1, h9⟩ := ascii_val_pos hc2a hc2b
            have hzero : (uniDigitVal? '0').getD 0 = 0 := by decide
            refine ⟨Or.inr ⟨'0', c2, rfl, Or.inr (Or.inr (Or.inl ⟨rfl, hc2a, hc2b⟩))⟩,
              ?_, h1⟩
            rw [natOfDigits_two, hbr, hzero]
            try omega
          next =>
            split at h
            next hc =>
              injection h with h
              subst h
              obtain ⟨hc1, hc2a, hc2b⟩ := hc
              subst hc1
              obtain ⟨hbr, h1, h9⟩ := ascii_val_pos hc2a hc2b
              have hsp : (uniDigitVal? ' ').getD 0 = 0 := by decide
              refine ⟨Or.inr ⟨' ', c2, rfl, Or.inr (Or.inr (Or.inr ⟨rfl, hc2a, hc2b⟩))⟩,
                ?_, h1⟩
              rw [natOfDigits_two, hbr, hsp]
              try omega
            next => exact absurd h (by simp)
  | _ :: _ :: _ :: _, _, h => by simp [dayField?] at h

/-- Acceptance of a month field from its shape. -/
theorem monthField?_of_shape {ms : List Char} (h : MonthShape ms) :
    monthField? ms = some (natOfDigits ms) := by
  rcases h with ⟨c, rfl, hc⟩ | ⟨c1, c2, rfl, hc⟩
  · obtain ⟨hbr, h1, h9⟩ := ascii_val_pos hc.1 hc.2
    show (if '1' ≤ c ∧ c ≤ '9' then some (digitVal c) else none)
      = some (natOfDigits [c])
    rw [if_pos hc, natOfDigits_one, hbr]
  · show (if c1 = '1' ∧ '0' ≤ c2 ∧ c2 ≤ '2' then some (10 + digitVal c2)
      else if c1 = '0' ∧ '1' ≤ c2 ∧ c2 ≤ '9' then some (digitVal c2)
      else none) = some (natOfDigits [c1, c2])
    rcases hc with ⟨hc1, hc2a, hc2b⟩ | ⟨hc1, hc2a, hc2b⟩
    · subst hc1
      have hc2b9 : c2 ≤ '9' := le_trans hc2b (by decide)
      obtain ⟨hbr, h9⟩ := ascii_val hc2a hc2b9
      have hone : (uniDigitVal? '1').getD 0 = 1 := by decide
      rw [if_pos ⟨rfl, hc2a, hc2b⟩, natOfDigits_two, hbr, hone]
    · subst hc1
      obtain ⟨hbr, h1, h9⟩ := ascii_val_pos hc2a hc2b
      have hzero : (uniDigitVal? '0').getD 0 = 0 := by decide
      rw [if_neg (by rintro ⟨h0, _⟩; exact absurd h0 (by decide)),
        if_pos ⟨rfl, hc2a, hc2b⟩, natOfDigits_two, hbr, hzero]
      exact congrArg some (by omega)

/-- Acceptance of a day field from its shape. -/
theorem dayField?_of_shape {ds : List Char} (h : DayShape ds) :
    dayField? ds = some (natOfDigits ds) := by
  rcases h with ⟨c, rfl, hc⟩ | ⟨c1, c2, rfl, hc⟩
  · obtain ⟨hbr, h1, h9⟩ := ascii_val_pos hc.1 hc.2
    show (if '1' ≤ c ∧ c ≤ '9' then some (digitVal c) else none)
      = some (natOfDigits [c])
    rw [if_pos hc, natOfDigits_one, hbr]
  · show (if c1 = '3' ∧ (c2 = '0' ∨ c2 = '1') then some (30 + digitVal c2)
      else if (c1 = '1' ∨ c1 = '2') ∧ isNd c2 = true then
        some (10 * digitVal c1 + (uniDigitVal? c2).getD 0)
      else if c1 = '0' ∧ '1' ≤ c2 ∧ c2 ≤ '9' then some (digitVal c2)
      else if c1 = ' ' ∧ '1' ≤ c2 ∧ c2 ≤ '9' then some (digitVal c2)
      else none) = some (natOfDigits [c1, c2])
    rcases hc with ⟨hc1, hc2⟩ | ⟨hc1, hc2⟩ | ⟨hc1, hc2a, hc2b⟩ | ⟨hc1, hc2a, hc2b⟩
    · subst hc1
      rw [if_pos ⟨rfl, hc2⟩]
      rcases hc2 with h0 | h0 <;> subst h0 <;> decide
    · rw [if_neg ?hne3, if_pos ⟨hc1, hc2⟩, natOfDigits_two]
      case hne3 =>
        rintro ⟨h0, _⟩
        rcases hc1 with h1 | h1 <;> subst h1 <;> exact absurd h0 (by decide)
      rcases hc1 with h0 | h0 <;> subst h0
      · have hv : (uniDigitVal? '1').getD 0 = 1 := by decide
        have hd : digitVal '1' = 1 := by decide
        rw [hv, hd]
      · have hv : (uniDigitVal? '2').getD 0 = 2 := by decide
        have hd : digitVal '2' = 2 := by decide
        rw [hv, hd]
    · subst hc1
      obtain ⟨hbr, h1, h9⟩ := ascii_val_pos hc2a hc2b
      have hzero : (uniDigitVal? '0').getD 0 = 0 := by decide
      rw [if_neg (by rintro ⟨h0, _⟩; exact absurd h0 (by decide)),
        if_neg (by rintro ⟨h0, _⟩; rcases h0 with h1 | h1 <;> exact absurd h1 (by decide)),
        if_pos ⟨rfl, hc2a, hc2b⟩, natOfDigits_two, hbr, hzero]
      try exact congrArg some (by omega)
    · subst hc1
      obtain ⟨hbr, h1, h9⟩ := ascii_val_pos hc2a hc2b
      have hsp : (uniDigitVal? ' ').getD 0 = 0 := by decide
      rw [if_neg (by rintro ⟨h0, _⟩; exact absurd h0 (by decide)),
        if_neg (by rintro ⟨h0, _⟩; rcases h0 with h1 | h1 <;> exact absurd h1 (by decide)),
        if_neg (by rintro ⟨h0, _⟩; exact absurd h0 (by decide)),
        if_pos ⟨rfl, hc2a, hc2b⟩, natOfDigits_two, hbr, hsp]
      try exact congrArg some (by omega)

/-- Reduction of the validator once the shape of the data is known. -/
theorem strptimeYmd_eq_of_data (s : String) (y1 y2 y3 y4 : Char)
    (rest : List Char) (hs : s.data = y1 :: y2 :: y3 :: y4 :: '-' :: rest) :
    strptimeYmd s =
      (isNd y1 && isNd y2 && isNd y3 && isNd y4 &&
       (match monthField? (rest.takeWhile (fun c => c != '-')),
              rest.dropWhile (fun c => c != '-') with
        | some m, '-' :: ds =>
            match dayField? ds with
            | some d => decide (1 ≤ natOfDigits [y1, y2, y3, y4]) &&
                        decide (d ≤ daysInMonth (natOfDigits [y1, y2, y3, y4]) m)
            | none => false
        | _, _ => false)) := by
  unfold strptimeYmd
  rw [hs]
  rfl

/-- Declarative characterisation of the dates the validator accepts:
four `\d` digits making a year of value at least 1, a separator, a
month field shaped by the %m regex with value 1–12, a separator, and a
day field shaped by the %d regex whose value is valid for that month
and year — and nothing else. -/
def SpecDate (s : String) : Prop :=
  ∃ ys ms ds : List Char,
    s.data = ys ++ '-' :: (ms ++ '-' :: ds) ∧
    ys.length = 4 ∧ (∀ c ∈ ys, isNd c = true) ∧ 1 ≤ natOfDigits ys ∧
    MonthShape ms ∧ 1 ≤ natOfDigits ms ∧ natOfDigits ms ≤ 12 ∧
    DayShape ds ∧ 1 ≤ natOfDigits ds ∧
    natOfDigits ds ≤ daysInMonth (natOfDigits ys) (natOfDigits ms)

/-- C2 amended: add_expense's date validation succeeds exactly on the
strings of SpecDate — as the claim says except that the year digits may
be any Unicode decimal digits and must not spell 0000, the month may
also be a single digit 1–9, and the day may also be a single digit 1–9,
a space-padded digit 1–9, or a 1/2 followed by any Unicode decimal
digit. -/
theorem strptimeYmd_iff_SpecDate (s : String) :
    strptimeYmd s = true ↔ SpecDate s := by
  constructor
  · intro h
    unfold strptimeYmd at h
    split at h
    next y1 y2 y3 y4 rest heq =>
      simp only [Bool.and_eq_true] at h
      obtain ⟨⟨⟨⟨h1, h2⟩, h3⟩, h4⟩, hm⟩ := h
      split at hm
      next m ds heq1 heq2 =>
        split at hm
        next d heq3 =>
          simp only [Bool.and_eq_true, decide_eq_true_eq] at hm
          obtain ⟨hy1, hdim⟩ := hm
          obtain ⟨hms, hmv, hm1, hm12⟩ := monthField?_eq_some heq1
          obtain ⟨hds, hdv, hd1⟩ := dayField?_eq_some heq3
          refine ⟨[y1, y2, y3, y4], rest.takeWhile (fun c => c != '-'), ds,
            ?_, rfl, by simp [h1, h2, h3, h4], hy1, hms, ?_, ?_, hds, ?_, ?_⟩
          · have hrest : rest.takeWhile (fun c => c != '-') ++ '-' :: ds = rest := by
              conv_rhs => rw [← List.takeWhile_append_dropWhile (fun c => c != '-') rest]
              rw [heq2]
            rw [heq]
            simp only [List.cons_append, List.nil_append, List.cons.injEq, true_and]
            exact hrest.symm
          · rw [← hmv]; exact hm1
          · rw [← hmv]; exact hm12
          · rw [← hdv]; exact hd1
          · rw [← hdv, ← hmv]; exact hdim
        next heq3 => exact absurd hm (by simp)
      next hne => exact absurd hm (by simp)
    next hne => exact absurd h (by simp)
  · rintro ⟨ys, ms, ds, hdata, hylen, hyNd, hy1, hms, hm1, hm12, hds, hd1, hdim⟩
    obtain ⟨a, b, c2, d4, hys⟩ : ∃ a b c2 d4, ys = [a, b, c2, d4] := by
      rcases ys with _ | ⟨a, ys⟩
      · simp at hylen
      rcases ys with _ | ⟨b, ys⟩
      · simp at hylen
      rcases ys with _ | ⟨c2, ys⟩
      · simp at hylen
      rcases ys with _ | ⟨d4, ys⟩
      · simp at hylen
      rcases ys with _ | ⟨e, ys⟩
      · exact ⟨a, b, c2, d4, rfl⟩
      · simp at hylen
    subst hys
    have hdata2 : s.data = a :: b :: c2 :: d4 :: '-' :: (ms ++ '-' :: ds) := by
      simpa using hdata
    rw [strptimeYmd_eq_of_data s a b c2 d4 (ms ++ '-' :: ds) hdata2]
    have hTD := takeWhile_middle (fun c => c != '-') ms '-' ds
      (monthShape_ne_dash hms) (by simp)
    have ha := hyNd a (by simp)
    have hb := hyNd b (by simp)
    have hc2 := hyNd c2 (by simp)
    have hd4 := hyNd d4 (by simp)
    simp [hTD.1, hTD.2, monthField?_of_shape hms, dayField?_of_shape hds,
      ha, hb, hc2, hd4, hy1, hdim]

/-- Concrete application of the amended C2 equivalence: the validator
certifies that "2024-01-1٥" — with an Arabic-Indic five as the second
day digit, accepted by the Unicode-wide `\d` — decomposes per
SpecDate. -/
theorem strptimeYmd_iff_SpecDate_witness : SpecDate "2024-01-1٥" :=
  (strptimeYmd_iff_SpecDate "2024-01-1٥").1 (by decide)
